import Mathlib

/-!
Shallow embedding of the collaborative-session coordination layer of the
christmas-tree repository: the socket.io server (session registry, control
hand-off protocol, WebRTC signaling relay) and the two stateful pieces of the
client (`SessionClient.tsx`): the 150 ms trailing debounce for outbound scene
updates and the pending-viewer queue of the controller's peer-connection
manager.

Modelling conventions:
- A JavaScript `Map` is an insertion-ordered association list; `set` on an
  existing key updates the value in place (keeping the position), `set` on a
  fresh key appends, `delete` removes the entry.
- A scene-state blob (a plain JS object merged with spread syntax) is an
  association list of field-name/value pairs with unique keys; `jsMerge`
  reproduces the `\x7b ...old, ...delta \x7d` spread exactly: overridden keys keep
  their position with the new value, fresh keys are appended in delta order.
- Socket ids are strings.  The socket.io engine generates ids as random
  20-character strings, so an id is never the empty string; theorems that
  depend on a JS truthiness test (`!session.controllerId`, `id || null`)
  carry that platform guarantee as an explicit nonemptiness hypothesis.
- Emission targets are symbolic: `Target.sender` is `socket.emit`,
  `Target.roomExceptSender r` is `socket.to(r).emit`, `Target.room r` is
  `io.to(r).emit` on a session room, and `Target.socket i` is `io.to(i).emit`
  on a single socket's private room.
-/

namespace ChristmasTree

/-- Opaque JSON-ish payload values carried by the protocol.  The coordination
layer never computes on these (numbers, photo lists and SDP payloads are
transported verbatim), so any value domain with decidable equality is a
faithful model. -/
inductive Val : Type where
  | vstr (s : String)
  | vnum (n : Int)
  | vlist (xs : List String)
  deriving DecidableEq, Repr

/-- A JS object used as a field-mergeable blob: association list with unique
keys, insertion-ordered. -/
abbrev Blob := List (String × Val)

/-- `Map.get`: the value at a key, if present (first matching entry). -/
def mapGet {α : Type} : List (String × α) → String → Option α
  | [], _ => none
  | p :: m, k => if p.1 == k then some p.2 else mapGet m k

/-- `Map.set`: update in place when the key is present (keeping insertion
order), otherwise append. -/
def mapSet {α : Type} (m : List (String × α)) (k : String) (v : α) :
    List (String × α) :=
  if (mapGet m k).isSome then
    m.map (fun p => if p.1 == k then (p.1, v) else p)
  else
    m ++ [(k, v)]

/-- `Map.delete`: remove the entry at a key. -/
def mapDelete {α : Type} (m : List (String × α)) (k : String) :
    List (String × α) :=
  m.filter (fun p => p.1 != k)

/-- Field lookup on a JS object (object property access, first matching
key of the association list). -/
def jsGet (b : Blob) (k : String) : Option Val :=
  mapGet b k

/-- The JS object spread `\x7b ...old, ...delta \x7d`: every key of `old` keeps its
position, with its value replaced when `delta` also has the key; keys only in
`delta` are appended in `delta`'s order. -/
def jsMerge (old delta : Blob) : Blob :=
  old.map (fun p =>
    match jsGet delta p.1 with
    | some v => (p.1, v)
    | none => p)
  ++ delta.filter (fun q => (jsGet old q.1).isNone)

/-- JS truthiness test on an optional string: `null` and the empty string are
falsy (`!session.controllerId`). -/
def jsFalsy : Option String → Bool
  | none => true
  | some s => s == ""

/-- A session member: `\x7b id, name \x7d` as stored in `session.users`. -/
structure User where
  id : String
  name : String
  deriving DecidableEq, Repr

/-- Server-side session state, as created by `getSession`. -/
structure Session where
  users : List (String × User)
  controllerId : Option String
  sceneState : Option Blob
  createdAt : Nat
  deriving DecidableEq, Repr

/-- The process-wide `sessions` map: session id → session. -/
abbrev Registry := List (String × Session)

/-- `session.users.get(id)?.name || fallback`: the member's name, with the JS
falsy fallback for a missing member or an empty name. -/
def nameOf (s : Session) (id fallback : String) : String :=
  match mapGet s.users id with
  | some u => if u.name == "" then fallback else u.name
  | none => fallback

/-- `getUsersPayload`: the users list sent in `session:joined`, in insertion
order. -/
def getUsersPayload (s : Session) : List User :=
  s.users.map (fun p => p.2)

/-- `getSession`: look the session up, lazily creating
`\x7b users: new Map(), controllerId: null, sceneState: null, createdAt \x7d`. -/
def getSession (reg : Registry) (sessionId : String) (now : Nat) :
    Registry × Session :=
  match mapGet reg sessionId with
  | some s => (reg, s)
  | none =>
    let fresh : Session := ⟨[], none, none, now⟩
    (mapSet reg sessionId fresh, fresh)

/-- The session mutation performed by the `session:join` handler:
`users.set(socket.id, { id: socket.id, name })` and, when the stored
controller is falsy (`!session.controllerId`), assignment of the joiner as
controller. -/
def joinSession (s : Session) (sender name : String) : Session :=
  { s with users := mapSet s.users sender ⟨sender, name⟩,
           controllerId :=
             if jsFalsy s.controllerId then some sender else s.controllerId }

/-- Inbound client→server messages handled by the connection handler. -/
inductive InMsg : Type where
  | join (sessionId name : String)
  | sceneUpdate (sessionId : String) (delta : Blob)
  | photosUpd (sessionId : String) (photos : Val)
  | controlRequest (sessionId : String)
  | controlOffer (sessionId targetId : String)
  | controlAccept (sessionId : String)
  | controlDecline (sessionId fromId : String)
  | viewerJoin (sessionId : String)
  | rtcOffer (toId : String) (offer : Val)
  | rtcAnswer (toId : String) (answer : Val)
  | rtcIce (toId : String) (candidate : Val)
  | disconnect
  deriving DecidableEq, Repr

/-- Where an outbound emission is routed. -/
inductive Target : Type where
  | sender
  | room (sessionId : String)
  | roomExceptSender (sessionId : String)
  | socket (id : String)
  deriving DecidableEq, Repr

/-- Outbound server→client messages. -/
inductive OutMsg : Type where
  | sessionJoined (sessionId userId : String) (users : List User)
      (controllerId : Option String) (sceneState : Option Blob)
  | userJoined (user : User)
  | userLeft (userId : String)
  | sceneStateMsg (delta : Blob)
  | photosUpdate (photos : Val)
  | controlRequested (requesterId requesterName : String)
  | controlOffer (fromId fromName : String)
  | controlChanged (controllerId : String)
  | sceneSync (sceneState : Option Blob)
  | controlDeclined (targetId targetName : String)
  | viewerJoin (viewerId : String)
  | rtcOffer (fromId : String) (offer : Val)
  | rtcAnswer (fromId : String) (answer : Val)
  | rtcIce (fromId : String) (candidate : Val)
  deriving DecidableEq, Repr

/-- One session's share of the `disconnect` handler body: skip sessions the
socket is not in; otherwise delete the user, emit `session:user-left`, elect a
successor when the departing socket held control (`users.values().next()`
with the `|| null` falsy guard on the id), and drop the session when its user
map became empty. -/
def disconnectOne (sender sid : String) (s : Session) :
    Option Session × List (Target × OutMsg) :=
  if (mapGet s.users sender).isSome then
    let wasController := s.controllerId == some sender
    let users1 := mapDelete s.users sender
    let outs0 : List (Target × OutMsg) :=
      [(Target.roomExceptSender sid, OutMsg.userLeft sender)]
    let ctrlOuts : Option String × List (Target × OutMsg) :=
      if wasController then
        match users1.head? with
        | some p =>
          if p.2.id == "" then (none, [])
          else (some p.2.id,
            [(Target.room sid, OutMsg.controlChanged p.2.id),
             (Target.socket p.2.id, OutMsg.sceneSync s.sceneState)])
        | none => (none, [])
      else (s.controllerId, [])
    if users1.isEmpty then (none, outs0 ++ ctrlOuts.2)
    else (some { s with users := users1, controllerId := ctrlOuts.1 },
          outs0 ++ ctrlOuts.2)
  else (some s, [])

/-- The successor computed by the `disconnect` handler when the departing
socket held control: the first remaining user's id, with the `|| null` guard
turning a falsy (empty) id into `null`; a non-controller departure keeps the
stored controller. -/
def electAfterDelete (s : Session) (sender : String) : Option String :=
  if s.controllerId == some sender then
    match (mapDelete s.users sender).head? with
    | some p => if p.2.id == "" then none else some p.2.id
    | none => none
  else s.controllerId

/-- The `disconnect` handler: iterate every session in registry order,
applying `disconnectOne`, keeping surviving sessions in order and
concatenating emissions in order. -/
def stepDisconnect (sender : String) (reg : Registry) :
    Registry × List (Target × OutMsg) :=
  reg.foldl
    (fun acc entry =>
      match disconnectOne sender entry.1 entry.2 with
      | (some s, outs) => (acc.1 ++ [(entry.1, s)], acc.2 ++ outs)
      | (none, outs) => (acc.1, acc.2 ++ outs))
    ([], [])

/-- The server's message dispatcher: one inbound message from socket `sender`
at time `now`, returning the new registry and the emissions in order. -/
def step (now : Nat) (sender : String) (msg : InMsg) (reg : Registry) :
    Registry × List (Target × OutMsg) :=
  match msg with
  | .join sessionId name =>
    let rs := getSession reg sessionId now
    let s1 := joinSession rs.2 sender name
    (mapSet rs.1 sessionId s1,
      [(Target.sender,
        OutMsg.sessionJoined sessionId sender (getUsersPayload s1)
          s1.controllerId s1.sceneState),
       (Target.roomExceptSender sessionId, OutMsg.userJoined ⟨sender, name⟩)])
  | .sceneUpdate sessionId delta =>
    match mapGet reg sessionId with
    | none => (reg, [])
    | some s =>
      if s.controllerId == some sender then
        let s1 : Session :=
          { s with sceneState := some (jsMerge (s.sceneState.getD []) delta) }
        (mapSet reg sessionId s1,
          [(Target.roomExceptSender sessionId, OutMsg.sceneStateMsg delta)])
      else (reg, [])
  | .photosUpd sessionId photos =>
    match mapGet reg sessionId with
    | none => (reg, [])
    | some s =>
      if s.controllerId == some sender then
        let b1 : Blob := jsMerge (s.sceneState.getD []) [("photos", photos)]
        let s1 : Session := { s with sceneState := some b1 }
        (mapSet reg sessionId s1,
          [(Target.roomExceptSender sessionId, OutMsg.photosUpdate photos)])
      else (reg, [])
  | .controlRequest sessionId =>
    match mapGet reg sessionId with
    | none => (reg, [])
    | some s =>
      if jsFalsy s.controllerId then (reg, [])
      else
        (reg, [(Target.socket (s.controllerId.getD ""),
          OutMsg.controlRequested sender (nameOf s sender "Guest"))])
  | .controlOffer sessionId targetId =>
    match mapGet reg sessionId with
    | none => (reg, [])
    | some s =>
      if s.controllerId == some sender then
        (reg, [(Target.socket targetId,
          OutMsg.controlOffer sender (nameOf s sender "Host"))])
      else (reg, [])
  | .controlAccept sessionId =>
    match mapGet reg sessionId with
    | none => (reg, [])
    | some s =>
      (mapSet reg sessionId { s with controllerId := some sender },
        [(Target.room sessionId, OutMsg.controlChanged sender),
         (Target.sender, OutMsg.sceneSync s.sceneState)])
  | .controlDecline sessionId fromId =>
    match mapGet reg sessionId with
    | none => (reg, [])
    | some s =>
      (reg, [(Target.socket fromId,
        OutMsg.controlDeclined sender (nameOf s sender "Guest"))])
  | .viewerJoin sessionId =>
    match mapGet reg sessionId with
    | none => (reg, [])
    | some s =>
      if jsFalsy s.controllerId then (reg, [])
      else
        (reg, [(Target.socket (s.controllerId.getD ""),
          OutMsg.viewerJoin sender)])
  | .rtcOffer toId offer =>
    (reg, [(Target.socket toId, OutMsg.rtcOffer sender offer)])
  | .rtcAnswer toId answer =>
    (reg, [(Target.socket toId, OutMsg.rtcAnswer sender answer)])
  | .rtcIce toId candidate =>
    (reg, [(Target.socket toId, OutMsg.rtcIce sender candidate)])
  | .disconnect => stepDisconnect sender reg

/-- One inbound event at the server: who sent what, when. -/
structure Event where
  now : Nat
  sender : String
  msg : InMsg
  deriving DecidableEq, Repr

/-- Apply one event to the registry, discarding emissions. -/
def applyEvent (reg : Registry) (e : Event) : Registry :=
  (step e.now e.sender e.msg reg).1

/-- Run a sequence of events from the empty registry. -/
def run (es : List Event) : Registry :=
  es.foldl applyEvent []

/-- Trace discipline for the amended controller invariant: every
`control:accept` is sent by a socket that is, at that moment, a member of the
named session. -/
def okAccepts : Registry → List Event → Bool
  | _, [] => true
  | reg, e :: es =>
    (match e.msg with
     | InMsg.controlAccept sid =>
       match mapGet reg sid with
       | some s => (mapGet s.users e.sender).isSome
       | none => true
     | _ => true)
    && okAccepts (applyEvent reg e) es

/-- Structural health of one session: user-map keys are duplicate-free, each
stored user's `id` field equals its key (the handlers only ever call
`users.set(socket.id, \x7b id: socket.id, ... \x7d)`), and the controller, when
non-null, is a key of the user map. -/
def GoodSession (s : Session) : Prop :=
  (s.users.map Prod.fst).Nodup ∧
  (∀ e ∈ s.users, e.2.id = e.1) ∧
  (s.controllerId = none ∨
    ∃ cid, s.controllerId = some cid ∧ (mapGet s.users cid).isSome = true)

/-- Structural health of the registry: keys duplicate-free and every session
healthy. -/
def GoodReg (reg : Registry) : Prop :=
  (reg.map Prod.fst).Nodup ∧ ∀ e ∈ reg, GoodSession e.2

/-!
Client-side model (`SessionClient.tsx`).

The scene-update debounce effect: while the client is the controller, every
change of the local `(sceneState, rotationSpeed)` pair clears the previously
scheduled timeout and schedules a fresh one 150 ms later that emits the pair
captured at scheduling time.  At quiescence the surviving timeout fires once.
The payload is opaque to the debouncing logic, so the model is generic in it.
-/

/-- Process a timeline of local changes `(time, value)` against a pending
trailing timer.  A pending timer whose deadline has been reached by the time
of the next change fires first (emitting its captured value); otherwise the
change clears it.  Each change schedules a fresh timer at `time + 150`.  At
quiescence the surviving timer fires.  Returns the emissions `(time, value)`
in order. -/
def debounceRun {α : Type} : Option (Nat × α) → List (Nat × α) → List (Nat × α)
  | pending, [] =>
    match pending with
    | some pv => [pv]
    | none => []
  | pending, (t, v) :: rest =>
    match pending with
    | some pv =>
      if pv.1 ≤ t then pv :: debounceRun (some (t + 150, v)) rest
      else debounceRun (some (t + 150, v)) rest
    | none => debounceRun (some (t + 150, v)) rest

/-- Controller-side WebRTC state relevant to the pending-viewer queue:
whether the scene canvas is ready (`canvasRef.current`), whether local capture
has started (`localStreamRef.current`), and the queued viewer ids
(`pendingViewersRef.current`, a `Set`, so insertion-ordered and
duplicate-free). -/
structure ClientRtc where
  canvasReady : Bool
  hasStream : Bool
  pendingViewers : List String
  deriving DecidableEq, Repr

/-- `Set.add`: append unless already present. -/
def pendingAdd (q : List String) (id : String) : List String :=
  if id ∈ q then q else q ++ [id]

/-- `ensureLocalStream`: `null` when the canvas is not ready; the existing
stream when capture already started; otherwise start capture and flush the
pending-viewer queue, sending one offer per queued id in insertion order.
Returns the new state, whether a stream is available, and the viewer ids
offered to by the flush. -/
def ensureLocalStream (st : ClientRtc) : ClientRtc × Bool × List String :=
  if st.canvasReady = false then (st, false, [])
  else if st.hasStream then (st, true, [])
  else ({ st with hasStream := true, pendingViewers := [] },
        true, st.pendingViewers)

/-- The `webrtc:viewer-join` handler on the controller: queue the viewer when
no stream is available, otherwise send it an offer (after any flush performed
by `ensureLocalStream`).  Returns the new state and the viewer ids offered
to, in emission order. -/
def onViewerJoin (st : ClientRtc) (viewerId : String) :
    ClientRtc × List String :=
  let r := ensureLocalStream st
  if r.2.1 then (r.1, r.2.2 ++ [viewerId])
  else ({ r.1 with pendingViewers := pendingAdd r.1.pendingViewers viewerId },
        r.2.2)

/-- `onCanvasReady` on a controller: the canvas becomes available and
`ensureLocalStream` is invoked, starting capture and flushing the queue. -/
def onCanvasReady (st : ClientRtc) : ClientRtc × List String :=
  let r := ensureLocalStream { st with canvasReady := true }
  (r.1, r.2.2)

/-- Fold a list of `webrtc:viewer-join` arrivals over the client state,
accumulating all offers emitted along the way. -/
def runViewerJoins (st : ClientRtc) (vs : List String) :
    ClientRtc × List String :=
  vs.foldl
    (fun acc id =>
      let r := onViewerJoin acc.1 id
      (r.1, acc.2 ++ r.2))
    (st, [])

/-! Association-list lemmas for the JS `Map` model. -/

theorem mapGet_nil {α : Type} (k : String) :
    mapGet ([] : List (String × α)) k = none := rfl

theorem mapGet_cons {α : Type} (p : String × α) (m : List (String × α))
    (k : String) :
    mapGet (p :: m) k = if p.1 == k then some p.2 else mapGet m k := rfl

theorem mapGet_append {α : Type} (m₁ m₂ : List (String × α)) (k : String) :
    mapGet (m₁ ++ m₂) k =
      match mapGet m₁ k with
      | some v => some v
      | none => mapGet m₂ k := by
  induction m₁ with
  | nil => simp [mapGet]
  | cons p m ih =>
    by_cases h : p.1 = k
    · simp [mapGet, h]
    · simpa [mapGet, h] using ih

theorem mapSet_eq_of_isSome {α : Type} {m : List (String × α)} {k : String}
    (h : (mapGet m k).isSome = true) (v : α) :
    mapSet m k v = m.map (fun p => if p.1 == k then (p.1, v) else p) := by
  simp [mapSet, h]

theorem mapSet_eq_append {α : Type} {m : List (String × α)} {k : String}
    (h : mapGet m k = none) (v : α) :
    mapSet m k v = m ++ [(k, v)] := by
  simp [mapSet, h]

theorem mapGet_updateMap_self {α : Type} (m : List (String × α)) (k : String)
    (v : α) :
    mapGet (m.map (fun p => if p.1 == k then (p.1, v) else p)) k =
      (mapGet m k).map (fun _ => v) := by
  induction m with
  | nil => rfl
  | cons p m ih =>
    by_cases h : p.1 = k
    · simp [mapGet, h]
    · simpa [mapGet, h] using ih

theorem mapGet_updateMap_ne {α : Type} (m : List (String × α))
    {k k' : String} (v : α) (h : k' ≠ k) :
    mapGet (m.map (fun p => if p.1 == k then (p.1, v) else p)) k' =
      mapGet m k' := by
  induction m with
  | nil => rfl
  | cons p m ih =>
    by_cases hp : p.1 = k
    · have h2 : ¬(k = k') := fun hh => h hh.symm
      simpa [mapGet, hp, h2] using ih
    · by_cases hc : p.1 = k'
      · simp [mapGet, hp, hc, h]
      · simpa [mapGet, hp, hc] using ih

theorem mapGet_mapSet_self {α : Type} (m : List (String × α)) (k : String)
    (v : α) :
    mapGet (mapSet m k v) k = some v := by
  cases h : mapGet m k with
  | none =>
    rw [mapSet_eq_append h, mapGet_append, h]
    simp [mapGet]
  | some u =>
    have hs : (mapGet m k).isSome = true := by simp [h]
    rw [mapSet_eq_of_isSome hs, mapGet_updateMap_self, h]
    rfl

theorem mapGet_mapSet_ne {α : Type} (m : List (String × α)) {k k' : String}
    (v : α) (h : k' ≠ k) :
    mapGet (mapSet m k v) k' = mapGet m k' := by
  cases hg : mapGet m k with
  | none =>
    rw [mapSet_eq_append hg, mapGet_append]
    cases h2 : mapGet m k' <;> simp [mapGet, Ne.symm h]
  | some u =>
    have hs : (mapGet m k).isSome = true := by simp [hg]
    rw [mapSet_eq_of_isSome hs, mapGet_updateMap_ne m v h]

theorem keys_mapSet_of_isSome {α : Type} {m : List (String × α)} {k : String}
    (h : (mapGet m k).isSome = true) (v : α) :
    (mapSet m k v).map Prod.fst = m.map Prod.fst := by
  rw [mapSet_eq_of_isSome h, List.map_map]
  clear h
  induction m with
  | nil => rfl
  | cons p m ih =>
    simp only [List.map_cons, List.cons.injEq]
    refine ⟨?_, ih⟩
    by_cases hp : p.1 = k <;> simp [Function.comp, hp]

theorem mapGet_eq_none_iff {α : Type} (m : List (String × α)) (k : String) :
    mapGet m k = none ↔ ∀ p ∈ m, p.1 ≠ k := by
  induction m with
  | nil => simp [mapGet]
  | cons p m ih =>
    by_cases h : p.1 = k
    · simp [mapGet, h]
    · simp [mapGet, h, ih]

theorem mapGet_isSome_iff {α : Type} (m : List (String × α)) (k : String) :
    (mapGet m k).isSome = true ↔ k ∈ m.map Prod.fst := by
  induction m with
  | nil => simp [mapGet]
  | cons p m ih =>
    by_cases h : p.1 = k
    · simp [mapGet, h]
    · have h2 : ¬(k = p.1) := fun hh => h hh.symm
      simp [mapGet, h, h2, ih]

theorem mem_of_mapGet_eq_some {α : Type} {m : List (String × α)} {k : String}
    {v : α} (h : mapGet m k = some v) :
    (k, v) ∈ m := by
  induction m with
  | nil => simp [mapGet] at h
  | cons p m ih =>
    by_cases hp : p.1 = k
    · have hv : p.2 = v := by simpa [mapGet, hp] using h
      have hpe : p = (k, v) := by
        cases p
        simp_all
      rw [← hpe]
      exact List.mem_cons_self p m
    · exact List.mem_cons_of_mem p (ih (by simpa [mapGet, hp] using h))

theorem mem_mapSet {α : Type} {m : List (String × α)} {k : String} {v : α}
    {e : String × α} (h : e ∈ mapSet m k v) :
    e = (k, v) ∨ e ∈ m := by
  cases hg : mapGet m k with
  | none =>
    rw [mapSet_eq_append hg] at h
    rcases List.mem_append.mp h with h | h
    · right; exact h
    · left; simpa using h
  | some u =>
    have hs : (mapGet m k).isSome = true := by simp [hg]
    rw [mapSet_eq_of_isSome hs] at h
    rcases List.mem_map.mp h with ⟨p, hp, he⟩
    by_cases hk : p.1 = k
    · left
      rw [← he]
      simp [hk]
    · right
      rw [← he]
      simp only [show (p.1 == k) = false by simpa using hk, Bool.false_eq_true,
        if_false]
      exact hp

theorem mapGet_mapSet_isSome {α : Type} (m : List (String × α))
    (k k' : String) (v : α) (h : (mapGet m k').isSome = true) :
    (mapGet (mapSet m k v) k').isSome = true := by
  by_cases hk : k' = k
  · subst hk; rw [mapGet_mapSet_self]; rfl
  · rwa [mapGet_mapSet_ne m v hk]

theorem keys_mapSet_nodup {α : Type} {m : List (String × α)} (k : String)
    (v : α) (h : (m.map Prod.fst).Nodup) :
    ((mapSet m k v).map Prod.fst).Nodup := by
  cases hg : mapGet m k with
  | none =>
    rw [mapSet_eq_append hg, List.map_append]
    have hnot : k ∉ m.map Prod.fst := by
      intro hmem
      have := (mapGet_isSome_iff m k).mpr hmem
      simp [hg] at this
    simp only [List.map_cons, List.map_nil, List.nodup_append, h, true_and]
    refine ⟨List.nodup_singleton k, ?_⟩
    intro a ha hak
    simp only [List.mem_singleton] at hak
    exact hnot (hak ▸ ha)
  | some u =>
    have hs : (mapGet m k).isSome = true := by simp [hg]
    rwa [keys_mapSet_of_isSome hs]

theorem mapGet_mapDelete_self {α : Type} (m : List (String × α))
    (k : String) :
    mapGet (mapDelete m k) k = none := by
  rw [mapGet_eq_none_iff]
  intro p hp
  have := List.of_mem_filter hp
  simpa using this

theorem mapGet_mapDelete_ne {α : Type} (m : List (String × α))
    {k k' : String} (h : k' ≠ k) :
    mapGet (mapDelete m k) k' = mapGet m k' := by
  induction m with
  | nil => rfl
  | cons p m ih =>
    by_cases hp : p.1 = k
    · have h2 : ¬(k = k') := fun hh => h hh.symm
      simpa [mapDelete, List.filter_cons, mapGet, hp, h2] using ih
    · by_cases hc : p.1 = k'
      · simp [mapDelete, List.filter_cons, mapGet, hp, hc, h]
      · simpa [mapDelete, List.filter_cons, mapGet, hp, hc] using ih

theorem keys_mapDelete_sublist {α : Type} (m : List (String × α))
    (k : String) :
    ((mapDelete m k).map Prod.fst).Sublist (m.map Prod.fst) :=
  (List.filter_sublist m).map Prod.fst

theorem mem_mapDelete {α : Type} {m : List (String × α)} {k : String}
    {e : String × α} (h : e ∈ mapDelete m k) :
    e ∈ m :=
  List.mem_of_mem_filter h

/-! Lemmas about the JS object spread `jsMerge`. -/

theorem jsGet_def (b : Blob) (k : String) : jsGet b k = mapGet b k := rfl

theorem mapGet_mergeMap (old delta : Blob) (k : String) :
    mapGet (old.map (fun p =>
        match mapGet delta p.1 with
        | some v => (p.1, v)
        | none => p)) k =
      (mapGet old k).map (fun u =>
        match mapGet delta k with
        | some v => v
        | none => u) := by
  induction old with
  | nil => rfl
  | cons p m ih =>
    by_cases hp : p.1 = k
    · cases hd : mapGet delta k <;> simp [mapGet, hp, hd]
    · cases hd : mapGet delta p.1 <;> simpa [mapGet, hp, hd] using ih

theorem mapGet_filterNotIn (old delta : Blob) (k : String)
    (h : mapGet old k = none) :
    mapGet (delta.filter (fun q => (mapGet old q.1).isNone)) k =
      mapGet delta k := by
  induction delta with
  | nil => rfl
  | cons q m ih =>
    by_cases hq : q.1 = k
    · simp [List.filter_cons, mapGet, hq, h]
    · cases hP : (mapGet old q.1).isNone <;>
        simpa [List.filter_cons, hP, mapGet, hq] using ih

/-- Field semantics of the spread `\x7b ...old, ...delta \x7d`: a field present in
the delta takes the delta's value; a field absent from the delta keeps its
previous value. -/
theorem jsGet_jsMerge (old delta : Blob) (k : String) :
    jsGet (jsMerge old delta) k =
      match jsGet delta k with
      | some v => some v
      | none => jsGet old k := by
  unfold jsMerge
  simp only [jsGet_def]
  rw [mapGet_append, mapGet_mergeMap]
  cases ho : mapGet old k with
  | some u => cases hd : mapGet delta k <;> simp [hd]
  | none =>
    simp only [ho, Option.map_none']
    rw [mapGet_filterNotIn old delta k ho]
    cases hd : mapGet delta k <;> simp [hd, ho]

/-! Characterization of the `disconnect` handler's fold. -/

theorem stepDisconnect_go (sender : String) (l : Registry)
    (acc : Registry × List (Target × OutMsg)) :
    l.foldl
      (fun acc entry =>
        match disconnectOne sender entry.1 entry.2 with
        | (some s, outs) => (acc.1 ++ [(entry.1, s)], acc.2 ++ outs)
        | (none, outs) => (acc.1, acc.2 ++ outs)) acc =
      (acc.1 ++ l.filterMap
        (fun e => ((disconnectOne sender e.1 e.2).1).map (fun s => (e.1, s))),
       acc.2 ++ l.flatMap (fun e => (disconnectOne sender e.1 e.2).2)) := by
  induction l generalizing acc with
  | nil => simp
  | cons e l ih =>
    rw [List.foldl_cons]
    cases hd : disconnectOne sender e.1 e.2 with
    | mk o outs =>
      cases o with
      | some s =>
        simp [hd, ih, List.filterMap_cons, List.append_assoc]
      | none =>
        simp [hd, ih, List.filterMap_cons, List.append_assoc]

theorem stepDisconnect_eq (sender : String) (reg : Registry) :
    stepDisconnect sender reg =
      (reg.filterMap
        (fun e => ((disconnectOne sender e.1 e.2).1).map (fun s => (e.1, s))),
       reg.flatMap (fun e => (disconnectOne sender e.1 e.2).2)) := by
  have h := stepDisconnect_go sender reg ([], [])
  simpa [stepDisconnect] using h

/-- `disconnectOne` on a session the socket is not in: unchanged, silent. -/
theorem disconnectOne_not_member (sender sid : String) (s : Session)
    (h : mapGet s.users sender = none) :
    disconnectOne sender sid s = (some s, []) := by
  simp [disconnectOne, h]

/-- `disconnectOne` when the departing socket was the last member: the session
is dropped and only `session:user-left` is emitted. -/
theorem disconnectOne_last_member (sender sid : String) (s : Session)
    (hm : (mapGet s.users sender).isSome = true)
    (he : mapDelete s.users sender = []) :
    disconnectOne sender sid s =
      (none, [(Target.roomExceptSender sid, OutMsg.userLeft sender)]) := by
  cases hw : s.controllerId == some sender <;>
    simp [disconnectOne, hm, he, hw]

/-- `disconnectOne` when the departing controller leaves members behind and
the first remaining user id is nonempty: that user is elected, the room is
told, and the successor alone gets a scene resync. -/
theorem disconnectOne_controller_elect (sender sid : String) (s : Session)
    (k : String) (u : User) (rest : List (String × User))
    (hm : (mapGet s.users sender).isSome = true)
    (hc : s.controllerId = some sender)
    (hd : mapDelete s.users sender = (k, u) :: rest)
    (hne : u.id ≠ "") :
    disconnectOne sender sid s =
      (some { s with users := (k, u) :: rest, controllerId := some u.id },
       [(Target.roomExceptSender sid, OutMsg.userLeft sender),
        (Target.room sid, OutMsg.controlChanged u.id),
        (Target.socket u.id, OutMsg.sceneSync s.sceneState)]) := by
  have hw : (s.controllerId == some sender) = true := by simp [hc]
  have hne2 : (u.id == "") = false := by simpa using hne
  simp [disconnectOne, hm, hd, hw, hne2]

/-- `disconnectOne` for a surviving non-controller departure: only the user
entry is removed and `session:user-left` emitted. -/
theorem disconnectOne_not_controller (sender sid : String) (s : Session)
    (hm : (mapGet s.users sender).isSome = true)
    (hc : s.controllerId ≠ some sender)
    (he : (mapDelete s.users sender).isEmpty = false) :
    disconnectOne sender sid s =
      (some { s with users := mapDelete s.users sender },
       [(Target.roomExceptSender sid, OutMsg.userLeft sender)]) := by
  have hw : (s.controllerId == some sender) = false := by simpa using hc
  simp [disconnectOne, hm, hw, he]

/-- The surviving-session shape of `disconnectOne` for a member departure. -/
theorem disconnectOne_member_fst (sender sid : String) (s : Session)
    (hm : (mapGet s.users sender).isSome = true)
    (he : (mapDelete s.users sender).isEmpty = false) :
    (disconnectOne sender sid s).1 =
      some { s with users := mapDelete s.users sender,
                    controllerId := electAfterDelete s sender } := by
  cases hw : s.controllerId == some sender
  · simp [disconnectOne, electAfterDelete, hm, he, hw]
  · cases hh : (mapDelete s.users sender).head? with
    | none => simp [disconnectOne, electAfterDelete, hm, he, hw, hh]
    | some p =>
      cases hid : p.2.id == "" <;>
        simp [disconnectOne, electAfterDelete, hm, he, hw, hh, hid]

/-- A session surviving `disconnectOne` no longer contains the departing
socket. -/
theorem disconnectOne_removes (sender sid : String) (s s1 : Session)
    (h : (disconnectOne sender sid s).1 = some s1) :
    mapGet s1.users sender = none := by
  cases hg : mapGet s.users sender with
  | none =>
    rw [disconnectOne_not_member sender sid s hg] at h
    have : s1 = s := by simpa using h.symm
    rw [this, hg]
  | some u =>
    have hm : (mapGet s.users sender).isSome = true := by simp [hg]
    cases he : (mapDelete s.users sender).isEmpty with
    | true =>
      have he2 : mapDelete s.users sender = [] := by
        simpa [List.isEmpty_iff] using he
      rw [disconnectOne_last_member sender sid s hm he2] at h
      simp at h
    | false =>
      rw [disconnectOne_member_fst sender sid s hm he] at h
      have hs1 : s1 = { s with users := mapDelete s.users sender, controllerId := electAfterDelete s sender } :=
        (Option.some_inj.mp h).symm
      rw [hs1]
      exact mapGet_mapDelete_self s.users sender

/-! Structural-invariant machinery for the controller invariant. -/

theorem countP_key_le_one {α : Type} (m : List (String × α)) (cid : String)
    (hnd : (m.map Prod.fst).Nodup) :
    m.countP (fun p => p.1 == cid) ≤ 1 := by
  have h1 : (m.map Prod.fst).countP (fun x => x == cid) =
      m.countP (fun p => p.1 == cid) := by
    rw [List.countP_map]
    rfl
  rw [← h1]
  simpa [List.count] using List.nodup_iff_count_le_one.mp hnd cid

theorem keys_filterMap_sublist {α β : Type}
    (F : String × α → Option (String × β))
    (hk : ∀ e q, F e = some q → q.1 = e.1) (m : List (String × α)) :
    ((m.filterMap F).map Prod.fst).Sublist (m.map Prod.fst) := by
  induction m with
  | nil => simp
  | cons e l ih =>
    rw [List.filterMap_cons]
    cases hF : F e with
    | none =>
      simp only [List.map_cons]
      exact ih.cons e.1
    | some q =>
      simp only [List.map_cons, hk e q hF]
      exact List.cons_sublist_cons.mpr ih

theorem mapGet_filterMap_keyed {α β : Type}
    (F : String × α → Option (String × β))
    (hk : ∀ e q, F e = some q → q.1 = e.1) (m : List (String × α))
    (hnd : (m.map Prod.fst).Nodup) (k : String) (s : α)
    (h : mapGet m k = some s) :
    mapGet (m.filterMap F) k = (F (k, s)).map (fun q => q.2) := by
  induction m with
  | nil => simp [mapGet] at h
  | cons e l ih =>
    have hnd2 : (l.map Prod.fst).Nodup := (List.nodup_cons.mp hnd).2
    by_cases hek : e.1 = k
    · have hes : e.2 = s := by simpa [mapGet, hek] using h
      have heq : e = (k, s) := by
        cases e
        simp_all
      rw [List.filterMap_cons]
      cases hF : F e with
      | none =>
        have hnomem : k ∉ (l.filterMap F).map Prod.fst := by
          intro hmem
          have hin := (keys_filterMap_sublist F hk l).subset hmem
          exact (List.nodup_cons.mp (hek ▸ hnd)).1 hin
        have hnone : mapGet (l.filterMap F) k = none := by
          cases hg2 : mapGet (l.filterMap F) k with
          | none => rfl
          | some w =>
            exact absurd ((mapGet_isSome_iff _ k).mp (by simp [hg2]))
              hnomem
        rw [hnone, ← heq, hF]
        rfl
      | some q =>
        have hq1 : q.1 = k := hek ▸ hk e q hF
        rw [← heq, hF]
        simp [mapGet, hq1]
    · have h2 : mapGet l k = some s := by simpa [mapGet, hek] using h
      rw [List.filterMap_cons]
      cases hF : F e with
      | none => exact ih hnd2 h2
      | some q =>
        have hq1 : q.1 = e.1 := hk e q hF
        have hqk : ¬(q.1 = k) := hq1 ▸ hek
        have := ih hnd2 h2
        simpa [mapGet, hqk] using this

/-- Freshly created then joined session is healthy. -/
theorem goodSession_joinSession (s : Session) (sender name : String)
    (hg : GoodSession s) :
    GoodSession (joinSession s sender name) := by
  obtain ⟨hnd, hid, hctl⟩ := hg
  simp only [joinSession]
  refine ⟨keys_mapSet_nodup sender ⟨sender, name⟩ hnd, ?_, ?_⟩
  · intro e he
    rcases mem_mapSet he with rfl | hmem
    · rfl
    · exact hid e hmem
  · cases hjf : jsFalsy s.controllerId with
    | true =>
      right
      refine ⟨sender, by simp [hjf], ?_⟩
      simp [mapGet_mapSet_self]
    | false =>
      rcases hctl with hnone | ⟨cid, hcid, hsome⟩
      · rw [hnone] at hjf
        simp [jsFalsy] at hjf
      · right
        refine ⟨cid, ?_, ?_⟩
        · simpa using hcid
        · simpa using mapGet_mapSet_isSome s.users sender cid ⟨sender, name⟩ hsome

/-- A session surviving a member departure stays healthy. -/
theorem disconnectOne_good (sender sid : String) (s s1 : Session)
    (hg : GoodSession s) (h : (disconnectOne sender sid s).1 = some s1) :
    GoodSession s1 := by
  obtain ⟨hnd, hid, hctl⟩ := hg
  cases hgm : mapGet s.users sender with
  | none =>
    rw [disconnectOne_not_member sender sid s hgm] at h
    have hs1 : s1 = s := (Option.some_inj.mp h).symm
    rw [hs1]
    exact ⟨hnd, hid, hctl⟩
  | some u =>
    have hm : (mapGet s.users sender).isSome = true := by simp [hgm]
    cases he : (mapDelete s.users sender).isEmpty with
    | true =>
      have he2 : mapDelete s.users sender = [] := by simpa using he
      rw [disconnectOne_last_member sender sid s hm he2] at h
      simp at h
    | false =>
      rw [disconnectOne_member_fst sender sid s hm he] at h
      have hs1 : s1 = { s with users := mapDelete s.users sender, controllerId := electAfterDelete s sender } :=
        (Option.some_inj.mp h).symm
      rw [hs1]
      refine ⟨(keys_mapDelete_sublist s.users sender).nodup hnd, ?_, ?_⟩
      · intro e he'
        exact hid e (mem_mapDelete he')
      · show electAfterDelete s sender = none ∨ _
        unfold electAfterDelete
        cases hw : s.controllerId == some sender with
        | true =>
          cases hh : (mapDelete s.users sender).head? with
          | none => left; simp [hh]
          | some p =>
            cases hpid : p.2.id == "" with
            | true => left; simp [hh, hpid]
            | false =>
              right
              refine ⟨p.2.id, by simp [hh, hpid], ?_⟩
              cases hu : mapDelete s.users sender with
              | nil => simp [hu] at hh
              | cons q t =>
                have hpq : p = q := by
                  have h3 := hh
                  rw [hu] at h3
                  exact (Option.some_inj.mp h3).symm
                have hqmem : q ∈ s.users := mem_mapDelete (hu ▸ List.mem_cons_self q t)
                have hqid : q.2.id = q.1 := hid q hqmem
                rw [hpq]
                simp [mapGet, hqid]
        | false =>
          rcases hctl with hnone | ⟨cid, hcid, hsome⟩
          · left
            simp [hnone]
          · right
            have hcs : ¬(cid = sender) := by
              intro hh
              rw [hcid, hh] at hw
              simp at hw
            refine ⟨cid, by simp [hcid], ?_⟩
            rwa [mapGet_mapDelete_ne s.users hcs]

/-- Updating one session of a healthy registry with a healthy session keeps
the registry healthy. -/
theorem goodReg_mapSet (reg : Registry) (sid : String) (s1 : Session)
    (hg : GoodReg reg) (hs1 : GoodSession s1) :
    GoodReg (mapSet reg sid s1) := by
  refine ⟨keys_mapSet_nodup sid s1 hg.1, ?_⟩
  intro e he
  rcases mem_mapSet he with rfl | hmem
  · exact hs1
  · exact hg.2 e hmem

/-- One dispatch step preserves registry health, provided a `control:accept`
comes from a session member. -/
theorem goodReg_step (now : Nat) (sender : String) (msg : InMsg)
    (reg : Registry) (hg : GoodReg reg)
    (hacc : ∀ sid, msg = InMsg.controlAccept sid →
      ∀ s, mapGet reg sid = some s → (mapGet s.users sender).isSome = true) :
    GoodReg (step now sender msg reg).1 := by
  cases msg with
  | join sid name =>
    cases hget : mapGet reg sid with
    | some s =>
      have hgood : GoodSession s := by
        have := mem_of_mapGet_eq_some hget
        exact hg.2 (sid, s) this
      simp only [step, getSession, hget]
      exact goodReg_mapSet reg sid _ hg (goodSession_joinSession s sender name hgood)
    | none =>
      have hfresh : GoodSession (⟨[], none, none, now⟩ : Session) := by
        refine ⟨by simp, by simp, Or.inl rfl⟩
      simp only [step, getSession, hget]
      exact goodReg_mapSet _ sid _
        (goodReg_mapSet reg sid _ hg hfresh)
        (goodSession_joinSession _ sender name hfresh)
  | sceneUpdate sid delta =>
    cases hget : mapGet reg sid with
    | none => simpa [step, hget] using hg
    | some s =>
      cases hc : s.controllerId == some sender with
      | false => simpa [step, hget, hc] using hg
      | true =>
        have hgood : GoodSession s := hg.2 (sid, s) (mem_of_mapGet_eq_some hget)
        simp only [step, hget, hc]
        refine goodReg_mapSet reg sid _ hg ?_
        exact ⟨hgood.1, hgood.2.1, hgood.2.2⟩
  | photosUpd sid photos =>
    cases hget : mapGet reg sid with
    | none => simpa [step, hget] using hg
    | some s =>
      cases hc : s.controllerId == some sender with
      | false => simpa [step, hget, hc] using hg
      | true =>
        have hgood : GoodSession s := hg.2 (sid, s) (mem_of_mapGet_eq_some hget)
        simp only [step, hget, hc]
        refine goodReg_mapSet reg sid _ hg ?_
        exact ⟨hgood.1, hgood.2.1, hgood.2.2⟩
  | controlRequest sid =>
    cases hget : mapGet reg sid with
    | none => simpa [step, hget] using hg
    | some s =>
      cases hjf : jsFalsy s.controllerId <;> simpa [step, hget, hjf] using hg
  | controlOffer sid targetId =>
    cases hget : mapGet reg sid with
    | none => simpa [step, hget] using hg
    | some s =>
      cases hc : s.controllerId == some sender <;>
        simpa [step, hget, hc] using hg
  | controlAccept sid =>
    cases hget : mapGet reg sid with
    | none => simpa [step, hget] using hg
    | some s =>
      have hgood : GoodSession s := hg.2 (sid, s) (mem_of_mapGet_eq_some hget)
      have hmem : (mapGet s.users sender).isSome = true :=
        hacc sid rfl s hget
      simp only [step, hget]
      refine goodReg_mapSet reg sid _ hg ?_
      exact ⟨hgood.1, hgood.2.1, Or.inr ⟨sender, rfl, hmem⟩⟩
  | controlDecline sid fromId =>
    cases hget : mapGet reg sid with
    | none => simpa [step, hget] using hg
    | some s => simpa [step, hget] using hg
  | viewerJoin sid =>
    cases hget : mapGet reg sid with
    | none => simpa [step, hget] using hg
    | some s =>
      cases hjf : jsFalsy s.controllerId <;> simpa [step, hget, hjf] using hg
  | rtcOffer toId offer => simpa [step] using hg
  | rtcAnswer toId answer => simpa [step] using hg
  | rtcIce toId candidate => simpa [step] using hg
  | disconnect =>
    show GoodReg (stepDisconnect sender reg).1
    rw [stepDisconnect_eq]
    have hkey : ∀ (e : String × Session) (q : String × Session),
        ((disconnectOne sender e.1 e.2).1).map (fun s => (e.1, s)) = some q →
        q.1 = e.1 := by
      intro e q hq
      cases ho : (disconnectOne sender e.1 e.2).1 with
      | none => simp [ho] at hq
      | some s1 =>
        have : q = (e.1, s1) := by simpa [ho] using hq.symm
        rw [this]
    refine ⟨(keys_filterMap_sublist _ hkey reg).nodup hg.1, ?_⟩
    intro e he
    rcases List.mem_filterMap.mp he with ⟨a, ha, hfa⟩
    cases ho : (disconnectOne sender a.1 a.2).1 with
    | none => simp [ho] at hfa
    | some s1 =>
      have he2 : e = (a.1, s1) := by simpa [ho] using hfa.symm
      rw [he2]
      exact disconnectOne_good sender a.1 a.2 s1 (hg.2 a ha) ho

/-- Health is preserved along any trace whose `control:accept` events come
from members. -/
theorem goodReg_fold (es : List Event) :
    ∀ reg : Registry, GoodReg reg → okAccepts reg es = true →
      GoodReg (es.foldl applyEvent reg) := by
  induction es with
  | nil => intro reg hg _; simpa using hg
  | cons e es ih =>
    intro reg hg hok
    rw [List.foldl_cons]
    have hok2 := (Bool.and_eq_true _ _).mp (by simpa [okAccepts] using hok)
    refine ih (applyEvent reg e) ?_ hok2.2
    refine goodReg_step e.now e.sender e.msg reg hg ?_
    intro sid hmsg s hget
    have h1 := hok2.1
    rw [hmsg] at h1
    simpa [hget] using h1

theorem goodReg_empty : GoodReg [] := by
  refine ⟨by simp, ?_⟩
  intro e he
  simp at he

/-! Further map helpers used by the join characterizations. -/

theorem updateMap_id_of_get_none {α : Type} {m : List (String × α)}
    {k : String} (h : mapGet m k = none) (v : α) :
    m.map (fun p => if p.1 == k then (p.1, v) else p) = m := by
  induction m with
  | nil => rfl
  | cons p l ih =>
    have hpk : ¬(p.1 = k) := by
      intro hh
      simp [mapGet, hh] at h
    have h2 : mapGet l k = none := by
      simpa [mapGet, hpk] using h
    rw [List.map_cons, ih h2]
    simp [hpk]

theorem mapSet_append_overwrite {α : Type} {m : List (String × α)}
    {k : String} (h : mapGet m k = none) (a b : α) :
    mapSet (m ++ [(k, a)]) k b = m ++ [(k, b)] := by
  have hs : (mapGet (m ++ [(k, a)]) k).isSome = true := by
    rw [mapGet_append, h]
    simp [mapGet]
  rw [mapSet_eq_of_isSome hs, List.map_append, updateMap_id_of_get_none h b]
  simp

/-! Client-side lemmas: the trailing debounce. -/

theorem debounceRun_pending {α : Type} (rest : List (Nat × α)) :
    ∀ (t0 : Nat) (v0 : α) (t : Nat) (v : α),
      List.Chain' (fun a b => b.1 < a.1 + 150) ((t0, v0) :: rest) →
      ((t0, v0) :: rest).getLast? = some (t, v) →
      debounceRun (some (t0 + 150, v0)) rest = [(t + 150, v)] := by
  induction rest with
  | nil =>
    intro t0 v0 t v _ hlast
    have heq : (t0, v0) = (t, v) := by simpa using hlast
    have ht : t0 = t := congrArg Prod.fst heq
    have hv : v0 = v := congrArg Prod.snd heq
    simp [debounceRun, ht, hv]
  | cons b rest ih =>
    intro t0 v0 t v hch hlast
    obtain ⟨hgap, hch2⟩ := List.chain'_cons.mp hch
    cases b with
    | mk t1 v1 =>
      have hnot : ¬(t0 + 150 ≤ t1) := by
        simp only at hgap
        omega
      have hlast2 : ((t1, v1) :: rest).getLast? = some (t, v) := by
        simp only [List.getLast?_cons_cons] at hlast
        exact hlast
      simp only [debounceRun, hnot, if_false]
      exact ih t1 v1 t v hch2 hlast2

/-! Client-side lemmas: the pending-viewer queue. -/

theorem pendingAdd_foldl_nodup (vs : List String) :
    ∀ q0 : List String, q0.Nodup → (vs.foldl pendingAdd q0).Nodup := by
  induction vs with
  | nil => intro q0 h; simpa using h
  | cons v vs ih =>
    intro q0 h
    rw [List.foldl_cons]
    refine ih _ ?_
    unfold pendingAdd
    by_cases hv : v ∈ q0
    · simpa [hv] using h
    · simp only [hv, if_false]
      rw [List.nodup_append]
      refine ⟨h, List.nodup_singleton v, ?_⟩
      intro a ha hav
      rw [List.mem_singleton] at hav
      exact hv (hav ▸ ha)

theorem pendingAdd_foldl_mem (vs : List String) :
    ∀ (q0 : List String) (a : String),
      a ∈ vs.foldl pendingAdd q0 ↔ a ∈ q0 ∨ a ∈ vs := by
  induction vs with
  | nil => intro q0 a; simp
  | cons v vs ih =>
    intro q0 a
    rw [List.foldl_cons, ih]
    unfold pendingAdd
    by_cases hv : v ∈ q0
    · by_cases hav : a = v
      · subst hav
        simp [hv]
      · simp [hv, hav]
    · simp only [hv, if_false, List.mem_append, List.mem_singleton,
        List.mem_cons]
      tauto

theorem pendingAdd_foldl_sublist (vs : List String) :
    ∀ q0 : List String, (vs.foldl pendingAdd q0).Sublist (q0 ++ vs) := by
  induction vs with
  | nil => intro q0; simp
  | cons v vs ih =>
    intro q0
    rw [List.foldl_cons]
    unfold pendingAdd
    by_cases hv : v ∈ q0
    · simp only [hv, if_true]
      refine (ih q0).trans ?_
      exact List.Sublist.append_left
        (List.sublist_cons_of_sublist v (List.Sublist.refl vs)) q0
    · simp only [hv, if_false]
      have h2 := ih (q0 ++ [v])
      rw [List.append_assoc] at h2
      simpa using h2

theorem pendingAdd_foldl_count (vs : List String) (a : String) :
    (vs.foldl pendingAdd []).count a = if a ∈ vs then 1 else 0 := by
  by_cases h : a ∈ vs
  · have hmem : a ∈ vs.foldl pendingAdd [] :=
      (pendingAdd_foldl_mem vs [] a).mpr (Or.inr h)
    have hnd := pendingAdd_foldl_nodup vs [] List.nodup_nil
    simp [h, List.count_eq_one_of_mem hnd hmem]
  · have hnmem : a ∉ vs.foldl pendingAdd [] := by
      intro hx
      rcases (pendingAdd_foldl_mem vs [] a).mp hx with h0 | h1
      · simp at h0
      · exact h h1
    simp [h, List.count_eq_zero.mpr hnmem]

theorem runViewerJoins_noCapture (vs : List String) :
    ∀ (q0 : List String) (os : List String),
      vs.foldl
        (fun acc id =>
          let r := onViewerJoin acc.1 id
          (r.1, acc.2 ++ r.2))
        (⟨false, false, q0⟩, os) =
      (⟨false, false, vs.foldl pendingAdd q0⟩, os) := by
  induction vs with
  | nil => intro q0 os; rfl
  | cons v vs ih =>
    intro q0 os
    rw [List.foldl_cons, List.foldl_cons]
    have hstep : onViewerJoin ⟨false, false, q0⟩ v =
        (⟨false, false, pendingAdd q0 v⟩, []) := by
      simp [onViewerJoin, ensureLocalStream]
    simp only [hstep, List.append_nil]
    exact ih (pendingAdd q0 v) os

/-! Claim theorems. -/

/-- C1 (counterexample to the claim as stated): the registry invariant
"controllerId is null or a key of users" is violable, because the
`control:accept` handler sets `controllerId` to the sender without checking
membership.  After "a" joins session "S" and a socket "b" that never joined
sends `control:accept`, the session's controller is "b" while "b" is not a
key of its user map. -/
theorem controller_invariant_counterexample :
    ∃ s : Session,
      mapGet (run [⟨0, "a", InMsg.join "S" "Alice"⟩,
        ⟨1, "b", InMsg.controlAccept "S"⟩]) "S" = some s ∧
      s.controllerId = some "b" ∧ mapGet s.users "b" = none := by
  refine ⟨⟨[("a", ⟨"a", "Alice"⟩)], some "b", none, 0⟩, by decide, rfl, by decide⟩

/-- C1 (amended): along any message trace in which every `control:accept` is
sent by a socket that is currently a member of the named session, every
session of the registry has `controllerId` null or a key of its user map, and
at most one user entry carries the controller's key. -/
theorem controller_invariant_requires_member_accept (es : List Event)
    (hok : okAccepts [] es = true) :
    ∀ sid s, mapGet (run es) sid = some s →
      (s.controllerId = none ∨
        ∃ cid, s.controllerId = some cid ∧ (mapGet s.users cid).isSome = true) ∧
      (∀ cid, s.controllerId = some cid →
        s.users.countP (fun p => p.1 == cid) ≤ 1) := by
  intro sid s hget
  have hg : GoodReg (run es) := goodReg_fold es [] goodReg_empty hok
  have hgood : GoodSession s := hg.2 (sid, s) (mem_of_mapGet_eq_some hget)
  refine ⟨hgood.2.2, ?_⟩
  intro cid _
  exact countP_key_le_one s.users cid hgood.1

/-- Witness for the amended C1 theorem at a concrete member-accept trace. -/
theorem controller_invariant_requires_member_accept_witness :
    okAccepts [] [⟨0, "a", InMsg.join "S" "Alice"⟩,
      ⟨1, "a", InMsg.controlAccept "S"⟩] = true ∧
    (∀ sid s, mapGet (run [⟨0, "a", InMsg.join "S" "Alice"⟩,
        ⟨1, "a", InMsg.controlAccept "S"⟩]) sid = some s →
      (s.controllerId = none ∨
        ∃ cid, s.controllerId = some cid ∧ (mapGet s.users cid).isSome = true) ∧
      (∀ cid, s.controllerId = some cid →
        s.users.countP (fun p => p.1 == cid) ≤ 1)) :=
  ⟨by decide, controller_invariant_requires_member_accept _ (by decide)⟩

/-- C2: for every existing session and every sender, `control:accept` sets
the session's controller to the sender unconditionally (no check that an
offer was extended), broadcasts `control:changed` with the sender's id to the
whole room, and sends `scene:sync` with the current blob to the sender
only. -/
theorem controlAccept_unconditional_transfer (now : Nat) (sender sid : String)
    (reg : Registry) (s : Session) (h : mapGet reg sid = some s) :
    step now sender (InMsg.controlAccept sid) reg =
      (mapSet reg sid { s with controllerId := some sender },
       [(Target.room sid, OutMsg.controlChanged sender),
        (Target.sender, OutMsg.sceneSync s.sceneState)]) := by
  simp [step, h]

/-- Witness for C2 at a concrete session and a sender that never joined. -/
theorem controlAccept_unconditional_transfer_witness :
    mapGet ([("S", (⟨[("a", ⟨"a", "A"⟩)], some "a", none, 0⟩ : Session))])
      "S" = some ⟨[("a", ⟨"a", "A"⟩)], some "a", none, 0⟩ ∧
    step 1 "b" (InMsg.controlAccept "S")
      [("S", ⟨[("a", ⟨"a", "A"⟩)], some "a", none, 0⟩)] =
      (mapSet [("S", ⟨[("a", ⟨"a", "A"⟩)], some "a", none, 0⟩)] "S"
        ⟨[("a", ⟨"a", "A"⟩)], some "b", none, 0⟩,
       [(Target.room "S", OutMsg.controlChanged "b"),
        (Target.sender, OutMsg.sceneSync none)]) :=
  ⟨by decide, controlAccept_unconditional_transfer 1 "b" "S"
    [("S", ⟨[("a", ⟨"a", "A"⟩)], some "a", none, 0⟩)]
    ⟨[("a", ⟨"a", "A"⟩)], some "a", none, 0⟩ (by decide)⟩

/-- C3: when a session member disconnects, the departing user is removed from
every session they belong to; a session emptied by the departure is deleted
from the registry; and when the departing member held control and other users
remain (with the first remaining id nonempty — socket ids never are empty),
the first remaining entry in the user map's insertion order is elected,
`control:changed` with the successor's id goes to the whole room and
`scene:sync` to the successor's socket alone. -/
theorem controller_disconnect_failover (now : Nat) (sender : String)
    (reg : Registry) (hnd : (reg.map Prod.fst).Nodup) :
    (∀ sid s1, mapGet (step now sender InMsg.disconnect reg).1 sid = some s1 →
      mapGet s1.users sender = none) ∧
    (∀ sid s, mapGet reg sid = some s →
      (mapGet s.users sender).isSome = true →
      mapDelete s.users sender = [] →
      mapGet (step now sender InMsg.disconnect reg).1 sid = none) ∧
    (∀ sid s k u rest, mapGet reg sid = some s →
      (mapGet s.users sender).isSome = true →
      s.controllerId = some sender →
      mapDelete s.users sender = (k, u) :: rest → u.id ≠ "" →
      mapGet (step now sender InMsg.disconnect reg).1 sid =
        some { s with users := (k, u) :: rest, controllerId := some u.id } ∧
      disconnectOne sender sid s =
        (some { s with users := (k, u) :: rest, controllerId := some u.id },
         [(Target.roomExceptSender sid, OutMsg.userLeft sender),
          (Target.room sid, OutMsg.controlChanged u.id),
          (Target.socket u.id, OutMsg.sceneSync s.sceneState)])) := by
  have hstep : (step now sender InMsg.disconnect reg).1 =
      reg.filterMap
        (fun e =>
          ((disconnectOne sender e.1 e.2).1).map (fun s => (e.1, s))) := by
    show (stepDisconnect sender reg).1 = _
    rw [stepDisconnect_eq]
  have hkey : ∀ (e : String × Session) (q : String × Session),
      ((disconnectOne sender e.1 e.2).1).map (fun s => (e.1, s)) = some q →
      q.1 = e.1 := by
    intro e q hq
    cases ho : (disconnectOne sender e.1 e.2).1 with
    | none => simp [ho] at hq
    | some s1 =>
      have hqe : q = (e.1, s1) := by simpa [ho] using hq.symm
      rw [hqe]
  refine ⟨?_, ?_, ?_⟩
  · intro sid s1 hget
    rw [hstep] at hget
    rcases List.mem_filterMap.mp (mem_of_mapGet_eq_some hget) with ⟨a, _, hfa⟩
    cases ho : (disconnectOne sender a.1 a.2).1 with
    | none => simp [ho] at hfa
    | some s2 =>
      have he : (sid, s1) = (a.1, s2) := by simpa [ho] using hfa.symm
      have hs12 : s1 = s2 := congrArg Prod.snd he
      rw [hs12]
      exact disconnectOne_removes sender a.1 a.2 s2 ho
  · intro sid s hs hm hdel
    have h1 : disconnectOne sender sid s =
        (none, [(Target.roomExceptSender sid, OutMsg.userLeft sender)]) :=
      disconnectOne_last_member sender sid s hm hdel
    rw [hstep, mapGet_filterMap_keyed _ hkey reg hnd sid s hs]
    simp [h1]
  · intro sid s k u rest hs hm hc hdel hne
    have h1 := disconnectOne_controller_elect sender sid s k u rest hm hc
      hdel hne
    refine ⟨?_, h1⟩
    rw [hstep, mapGet_filterMap_keyed _ hkey reg hnd sid s hs]
    simp [h1]

/-- Witness for C3: controller "a" disconnects, "b" is elected, the room is
told and only "b" gets the resync. -/
theorem controller_disconnect_failover_witness :
    (([("S", (⟨[("a", ⟨"a", "A"⟩), ("b", ⟨"b", "B"⟩)], some "a", none,
        0⟩ : Session))] : Registry).map Prod.fst).Nodup ∧
    mapGet ([("S", (⟨[("a", ⟨"a", "A"⟩), ("b", ⟨"b", "B"⟩)], some "a", none,
        0⟩ : Session))] : Registry) "S" =
      some ⟨[("a", ⟨"a", "A"⟩), ("b", ⟨"b", "B"⟩)], some "a", none, 0⟩ ∧
    mapDelete (⟨[("a", ⟨"a", "A"⟩), ("b", ⟨"b", "B"⟩)], some "a", none,
        0⟩ : Session).users "a" = [("b", ⟨"b", "B"⟩)] ∧
    mapGet (step 2 "a" InMsg.disconnect
        [("S", ⟨[("a", ⟨"a", "A"⟩), ("b", ⟨"b", "B"⟩)], some "a", none,
          0⟩)]).1 "S" =
      some ⟨[("b", ⟨"b", "B"⟩)], some "b", none, 0⟩ ∧
    disconnectOne "a" "S"
        ⟨[("a", ⟨"a", "A"⟩), ("b", ⟨"b", "B"⟩)], some "a", none, 0⟩ =
      (some ⟨[("b", ⟨"b", "B"⟩)], some "b", none, 0⟩,
       [(Target.roomExceptSender "S", OutMsg.userLeft "a"),
        (Target.room "S", OutMsg.controlChanged "b"),
        (Target.socket "b", OutMsg.sceneSync none)]) := by
  refine ⟨by decide, by decide, by decide, ?_⟩
  have h := (controller_disconnect_failover 2 "a"
    [("S", ⟨[("a", ⟨"a", "A"⟩), ("b", ⟨"b", "B"⟩)], some "a", none, 0⟩)]
    (by decide)).2.2 "S"
    ⟨[("a", ⟨"a", "A"⟩), ("b", ⟨"b", "B"⟩)], some "a", none, 0⟩
    "b" ⟨"b", "B"⟩ [] (by decide) (by decide) (by decide) (by decide)
    (by decide)
  refine ⟨?_, ?_⟩
  · rw [h.1]
  · rw [h.2]

/-- C4: a `scene:update`, `photos:update` or `control:offer` whose sender is
not the current controller, or that names an unknown session, leaves the
registry unchanged and emits nothing at all (no broadcast, no error
reply). -/
theorem unauthorized_or_unknown_dropped_silently (now : Nat)
    (sender sid targetId : String) (delta : Blob) (photos : Val)
    (reg : Registry)
    (h : mapGet reg sid = none ∨
      ∃ s, mapGet reg sid = some s ∧ s.controllerId ≠ some sender) :
    step now sender (InMsg.sceneUpdate sid delta) reg = (reg, []) ∧
    step now sender (InMsg.photosUpd sid photos) reg = (reg, []) ∧
    step now sender (InMsg.controlOffer sid targetId) reg = (reg, []) := by
  rcases h with h | ⟨s, hs, hns⟩
  · refine ⟨by simp [step, h], by simp [step, h], by simp [step, h]⟩
  · have hb : (s.controllerId == some sender) = false := by simpa using hns
    refine ⟨by simp [step, hs, hb], by simp [step, hs, hb],
      by simp [step, hs, hb]⟩

/-- Witness for C4: non-controller "b" and unknown session both drop. -/
theorem unauthorized_or_unknown_dropped_silently_witness :
    (mapGet ([("S", (⟨[("a", ⟨"a", "A"⟩)], some "a", none, 0⟩ : Session))])
        "S" = some ⟨[("a", ⟨"a", "A"⟩)], some "a", none, 0⟩ ∧
      (⟨[("a", ⟨"a", "A"⟩)], some "a", none, 0⟩ : Session).controllerId ≠
        some "b") ∧
    step 1 "b" (InMsg.sceneUpdate "S" [("x", Val.vnum 1)])
      [("S", ⟨[("a", ⟨"a", "A"⟩)], some "a", none, 0⟩)] =
      ([("S", ⟨[("a", ⟨"a", "A"⟩)], some "a", none, 0⟩)], []) :=
  ⟨⟨by decide, by decide⟩,
    (unauthorized_or_unknown_dropped_silently 1 "b" "S" "t"
      [("x", Val.vnum 1)] (Val.vnum 0)
      [("S", ⟨[("a", ⟨"a", "A"⟩)], some "a", none, 0⟩)]
      (Or.inr ⟨⟨[("a", ⟨"a", "A"⟩)], some "a", none, 0⟩, by decide,
        by decide⟩)).1⟩

/-- C5: an authorized `scene:update` replaces the session blob by the shallow
merge of the previous blob with the delta — fields present in the delta take
the delta's value, fields absent from the delta keep their previous value —
and an authorized `photos:update` sets exactly the `photos` field, leaving
every other field unchanged. -/
theorem sceneState_shallow_merge (now : Nat) (sender sid : String)
    (reg : Registry) (s : Session) (delta : Blob) (photos : Val)
    (hs : mapGet reg sid = some s) (hc : s.controllerId = some sender) :
    ((step now sender (InMsg.sceneUpdate sid delta) reg).1 =
        mapSet reg sid { s with sceneState := some (jsMerge (s.sceneState.getD []) delta) } ∧
      (∀ k v, jsGet delta k = some v →
        jsGet (jsMerge (s.sceneState.getD []) delta) k = some v) ∧
      (∀ k, jsGet delta k = none →
        jsGet (jsMerge (s.sceneState.getD []) delta) k =
          jsGet (s.sceneState.getD []) k)) ∧
    ((step now sender (InMsg.photosUpd sid photos) reg).1 =
        mapSet reg sid { s with sceneState := some (jsMerge (s.sceneState.getD []) [("photos", photos)]) } ∧
      jsGet (jsMerge (s.sceneState.getD []) [("photos", photos)]) "photos" =
        some photos ∧
      (∀ k, k ≠ "photos" →
        jsGet (jsMerge (s.sceneState.getD []) [("photos", photos)]) k =
          jsGet (s.sceneState.getD []) k)) := by
  have hb : (s.controllerId == some sender) = true := by simp [hc]
  refine ⟨⟨by simp [step, hs, hb], ?_, ?_⟩, ⟨by simp [step, hs, hb], ?_, ?_⟩⟩
  · intro k v hk
    rw [jsGet_jsMerge, hk]
  · intro k hk
    rw [jsGet_jsMerge, hk]
  · rw [jsGet_jsMerge]
    simp [jsGet_def, mapGet]
  · intro k hk
    have h0 : jsGet [("photos", photos)] k = none := by
      simp [jsGet_def, mapGet, Ne.symm hk]
    rw [jsGet_jsMerge, h0]

/-- Witness for C5 at a concrete controller update. -/
theorem sceneState_shallow_merge_witness :
    (mapGet ([("S", (⟨[("a", ⟨"a", "A"⟩)], some "a",
        some [("sceneState", Val.vstr "FORMED"), ("rotationSpeed", Val.vnum 0)],
        0⟩ : Session))]) "S" =
      some ⟨[("a", ⟨"a", "A"⟩)], some "a",
        some [("sceneState", Val.vstr "FORMED"), ("rotationSpeed", Val.vnum 0)],
        0⟩) ∧
    (step 1 "a" (InMsg.sceneUpdate "S" [("sceneState", Val.vstr "CAROUSEL")])
        [("S", ⟨[("a", ⟨"a", "A"⟩)], some "a",
          some [("sceneState", Val.vstr "FORMED"),
            ("rotationSpeed", Val.vnum 0)], 0⟩)]).1 =
      mapSet [("S", ⟨[("a", ⟨"a", "A"⟩)], some "a",
          some [("sceneState", Val.vstr "FORMED"),
            ("rotationSpeed", Val.vnum 0)], 0⟩)] "S"
        ⟨[("a", ⟨"a", "A"⟩)], some "a",
          some (jsMerge
            [("sceneState", Val.vstr "FORMED"), ("rotationSpeed", Val.vnum 0)]
            [("sceneState", Val.vstr "CAROUSEL")]), 0⟩ :=
  ⟨by decide,
    ((sceneState_shallow_merge 1 "a" "S"
      [("S", ⟨[("a", ⟨"a", "A"⟩)], some "a",
        some [("sceneState", Val.vstr "FORMED"), ("rotationSpeed", Val.vnum 0)],
        0⟩)]
      ⟨[("a", ⟨"a", "A"⟩)], some "a",
        some [("sceneState", Val.vstr "FORMED"), ("rotationSpeed", Val.vnum 0)],
        0⟩
      [("sceneState", Val.vstr "CAROUSEL")] (Val.vnum 0)
      (by decide) (by decide)).1).1⟩

/-- C6: a `session:join` lazily creates the session when absent (empty users,
null controller, null blob), adds the caller, makes the caller controller
when the stored controller is null, replies to the caller alone with the full
state (user id, users list, controller, blob), and notifies the rest of the
room with just the joiner's id and name. -/
theorem session_join_behavior (now : Nat) (sender sid name : String)
    (reg : Registry) :
    (mapGet reg sid = none →
      step now sender (InMsg.join sid name) reg =
        (reg ++ [(sid, ⟨[(sender, ⟨sender, name⟩)], some sender, none, now⟩)],
         [(Target.sender, OutMsg.sessionJoined sid sender [⟨sender, name⟩]
            (some sender) none),
          (Target.roomExceptSender sid, OutMsg.userJoined ⟨sender, name⟩)])) ∧
    (∀ s, mapGet reg sid = some s →
      step now sender (InMsg.join sid name) reg =
        (mapSet reg sid (joinSession s sender name),
         [(Target.sender, OutMsg.sessionJoined sid sender
            (getUsersPayload (joinSession s sender name))
            (joinSession s sender name).controllerId
            (joinSession s sender name).sceneState),
          (Target.roomExceptSender sid, OutMsg.userJoined ⟨sender, name⟩)]) ∧
      mapGet (joinSession s sender name).users sender = some ⟨sender, name⟩ ∧
      (s.controllerId = none →
        (joinSession s sender name).controllerId = some sender)) := by
  constructor
  · intro h
    have hfresh : joinSession ⟨[], none, none, now⟩ sender name =
        ⟨[(sender, ⟨sender, name⟩)], some sender, none, now⟩ := by
      simp [joinSession, mapSet, mapGet, jsFalsy]
    simp only [step, getSession, h]
    rw [mapSet_eq_append h, hfresh, mapSet_append_overwrite h]
    simp [getUsersPayload, hfresh]
  · intro s hs
    refine ⟨?_, ?_, ?_⟩
    · simp [step, getSession, hs]
    · simpa [joinSession] using
        mapGet_mapSet_self s.users sender (⟨sender, name⟩ : User)
    · intro hnull
      simp [joinSession, jsFalsy, hnull]

/-- Witness for C6 at a fresh session. -/
theorem session_join_behavior_witness :
    mapGet ([] : Registry) "S" = none ∧
    step 0 "a" (InMsg.join "S" "Alice") [] =
      ([("S", ⟨[("a", ⟨"a", "Alice"⟩)], some "a", none, 0⟩)],
       [(Target.sender, OutMsg.sessionJoined "S" "a" [⟨"a", "Alice"⟩]
          (some "a") none),
        (Target.roomExceptSender "S", OutMsg.userJoined ⟨"a", "Alice"⟩)]) := by
  refine ⟨rfl, ?_⟩
  have h := (session_join_behavior 0 "a" "S" "Alice" []).1 rfl
  simpa using h

/-- C7: while a client is the controller, a burst of N ≥ 1 local
scene-state or rotation-speed changes, each arriving strictly within 150 ms
of the previous one, produces exactly one outbound `scene:update`, fired
150 ms after the last change and carrying the last value of the burst. -/
theorem debounce_coalesces_burst {α : Type} (changes : List (Nat × α))
    (t : Nat) (v : α)
    (hch : List.Chain' (fun a b => b.1 < a.1 + 150) changes)
    (hlast : changes.getLast? = some (t, v)) :
    debounceRun none changes = [(t + 150, v)] := by
  cases changes with
  | nil => simp at hlast
  | cons c rest =>
    cases c with
    | mk t0 v0 =>
      show debounceRun (some (t0 + 150, v0)) rest = [(t + 150, v)]
      exact debounceRun_pending rest t0 v0 t v hch hlast

/-- Witness for C7: a three-change burst yields one message with the last
value, 150 ms after the last change. -/
theorem debounce_coalesces_burst_witness :
    List.Chain' (fun a b => b.1 < a.1 + 150)
      [((0 : Nat), (10 : Nat)), (100, 20), (200, 30)] ∧
    [((0 : Nat), (10 : Nat)), (100, 20), (200, 30)].getLast? =
      some (200, 30) ∧
    debounceRun none [((0 : Nat), (10 : Nat)), (100, 20), (200, 30)] =
      [(350, 30)] :=
  ⟨by norm_num [List.chain'_cons, List.chain'_singleton], by decide,
    debounce_coalesces_burst [(0, 10), (100, 20), (200, 30)] 200 30
      (by norm_num [List.chain'_cons, List.chain'_singleton]) (by decide)⟩

/-- C8: the WebRTC relay forwards `offer`, `answer` and `ice` to the named
target's socket with the payload untouched, the sender's id attached as
`from`, and no registry change. -/
theorem relay_forwards_verbatim (now : Nat) (sender toId : String)
    (reg : Registry) (payload : Val) :
    step now sender (InMsg.rtcOffer toId payload) reg =
      (reg, [(Target.socket toId, OutMsg.rtcOffer sender payload)]) ∧
    step now sender (InMsg.rtcAnswer toId payload) reg =
      (reg, [(Target.socket toId, OutMsg.rtcAnswer sender payload)]) ∧
    step now sender (InMsg.rtcIce toId payload) reg =
      (reg, [(Target.socket toId, OutMsg.rtcIce sender payload)]) :=
  ⟨rfl, rfl, rfl⟩

/-- C9: viewer-joins arriving before capture are queued (no offer emitted and
each arriving id is in the queue); once capture becomes available the queue
is drained in arrival order (the flush is a subsequence of the arrivals) and
exactly one offer goes to each queued id and to no other id. -/
theorem pending_viewer_queue_drain (vs : List String) :
    (runViewerJoins ⟨false, false, []⟩ vs).2 = [] ∧
    (runViewerJoins ⟨false, false, []⟩ vs).1.pendingViewers =
      vs.foldl pendingAdd [] ∧
    (∀ a, a ∈ (runViewerJoins ⟨false, false, []⟩ vs).1.pendingViewers ↔
      a ∈ vs) ∧
    (onCanvasReady (runViewerJoins ⟨false, false, []⟩ vs).1).2 =
      vs.foldl pendingAdd [] ∧
    (onCanvasReady (runViewerJoins ⟨false, false, []⟩ vs).1).2.Sublist vs ∧
    (∀ a, (onCanvasReady (runViewerJoins ⟨false, false, []⟩ vs).1).2.count a =
      if a ∈ vs then 1 else 0) := by
  have hrun : runViewerJoins ⟨false, false, []⟩ vs =
      (⟨false, false, vs.foldl pendingAdd []⟩, []) := by
    simpa [runViewerJoins] using runViewerJoins_noCapture vs [] []
  have hflush : (onCanvasReady (⟨false, false, vs.foldl pendingAdd []⟩ :
      ClientRtc)).2 = vs.foldl pendingAdd [] := by
    simp [onCanvasReady, ensureLocalStream]
  refine ⟨by rw [hrun], by rw [hrun], ?_, ?_, ?_, ?_⟩
  · intro a
    rw [hrun]
    simpa using pendingAdd_foldl_mem vs [] a
  · rw [hrun]
    exact hflush
  · rw [hrun, hflush]
    simpa using pendingAdd_foldl_sublist vs []
  · intro a
    rw [hrun, hflush]
    exact pendingAdd_foldl_count vs a

/-- C10: a second `session:join` from an existing member changes neither the
key set nor the key order of the user map, rewrites only that member's stored
entry (the new name under the same id), keeps a non-null (hence, per the
socket-id domain, nonempty) controller unchanged, and still sends the joiner
the full `session:joined` reply plus the room notice. -/
theorem rejoin_idempotent (now : Nat) (sender sid name : String)
    (reg : Registry) (s : Session) (u : User) (c : String)
    (hs : mapGet reg sid = some s)
    (hmem : mapGet s.users sender = some u)
    (hc : s.controllerId = some c) (hc0 : c ≠ "") :
    step now sender (InMsg.join sid name) reg =
      (mapSet reg sid { s with users := mapSet s.users sender ⟨sender, name⟩ },
       [(Target.sender, OutMsg.sessionJoined sid sender
          (getUsersPayload { s with users := mapSet s.users sender ⟨sender, name⟩ })
          (some c) s.sceneState),
        (Target.roomExceptSender sid, OutMsg.userJoined ⟨sender, name⟩)]) ∧
    (mapSet s.users sender ⟨sender, name⟩).map Prod.fst =
      s.users.map Prod.fst ∧
    mapGet (mapSet s.users sender ⟨sender, name⟩) sender =
      some ⟨sender, name⟩ ∧
    (∀ k, k ≠ sender →
      mapGet (mapSet s.users sender ⟨sender, name⟩) k = mapGet s.users k) := by
  have hjf : jsFalsy s.controllerId = false := by simp [jsFalsy, hc, hc0]
  have hjoin : joinSession s sender name =
      { s with users := mapSet s.users sender ⟨sender, name⟩ } := by
    simp [joinSession, hjf]
  refine ⟨?_, ?_, mapGet_mapSet_self s.users sender (⟨sender, name⟩ : User),
    ?_⟩
  · simp only [step, getSession, hs]
    rw [hjoin]
    simp [hc]
  · exact keys_mapSet_of_isSome (by simp [hmem]) (⟨sender, name⟩ : User)
  · intro k hk
    exact mapGet_mapSet_ne s.users (⟨sender, name⟩ : User) hk

/-- Witness for C10: a member rejoining with a new name. -/
theorem rejoin_idempotent_witness :
    (mapGet ([("S", (⟨[("a", ⟨"a", "A"⟩), ("b", ⟨"b", "B"⟩)], some "b", none,
        0⟩ : Session))]) "S" =
      some ⟨[("a", ⟨"a", "A"⟩), ("b", ⟨"b", "B"⟩)], some "b", none, 0⟩) ∧
    ("b" : String) ≠ "" ∧
    step 3 "a" (InMsg.join "S" "Alice")
        [("S", ⟨[("a", ⟨"a", "A"⟩), ("b", ⟨"b", "B"⟩)], some "b", none, 0⟩)] =
      (mapSet [("S", ⟨[("a", ⟨"a", "A"⟩), ("b", ⟨"b", "B"⟩)], some "b", none,
          0⟩)] "S"
        ⟨[("a", ⟨"a", "Alice"⟩), ("b", ⟨"b", "B"⟩)], some "b", none, 0⟩,
       [(Target.sender, OutMsg.sessionJoined "S" "a"
          [⟨"a", "Alice"⟩, ⟨"b", "B"⟩] (some "b") none),
        (Target.roomExceptSender "S", OutMsg.userJoined ⟨"a", "Alice"⟩)]) := by
  refine ⟨by decide, by decide, ?_⟩
  have h := (rejoin_idempotent 3 "a" "S" "Alice"
    [("S", ⟨[("a", ⟨"a", "A"⟩), ("b", ⟨"b", "B"⟩)], some "b", none, 0⟩)]
    ⟨[("a", ⟨"a", "A"⟩), ("b", ⟨"b", "B"⟩)], some "b", none, 0⟩
    ⟨"a", "A"⟩ "b" (by decide) (by decide) (by decide) (by decide)).1
  rw [h]
  decide

end ChristmasTree
